import Mathlib

/-!
Verification of the buffer pool of `rust-mysql-simple-wasi`
(`src/buffer_pool.rs`), as a shallow embedding.

A Rust `Vec<u8>` is modelled by its initialized contents (a list of bytes)
together with its allocated capacity.  The crossbeam `ArrayQueue<Vec<u8>>`
is modelled by a fixed capacity and the list of queued buffers.  The `Arc`
sharing of `Inner` is modelled by threading the `Inner` state explicitly;
the `Option<Arc<Inner>>` back-reference held by a `PooledBuf` is modelled
by a boolean presence flag (there is a single pool in each scenario).
Environment variables are modelled as `Option String` inputs to the
constructor.
-/

set_option autoImplicit false

namespace BufferPoolModel

/-- Model of Rust `Vec<u8>`: the initialized contents (`data`, whose list
length is the Rust `len`) and the allocated capacity `cap`. -/
structure Vec where
  data : List Nat
  cap : Nat
deriving DecidableEq

/-- Rust `Vec::new()` / `Vec::default()`: empty, capacity 0. -/
def Vec.nil : Vec := ⟨[], 0⟩

/-- The Rust `Vec` representation invariant: length never exceeds capacity. -/
def Vec.wf (v : Vec) : Prop := v.data.length ≤ v.cap

instance (v : Vec) : Decidable v.wf := by
  unfold Vec.wf
  infer_instance

/-- `unsafe { buf.set_len(0) }` from `Inner::get`: the length becomes 0, the
allocated capacity is untouched (the stale bytes become inaccessible). -/
def Vec.setLen0 (v : Vec) : Vec := ⟨[], v.cap⟩

/-- `Vec::shrink_to(min_capacity)`: no-op when the capacity is already at
most `minCap`; otherwise the capacity drops to `max len minCap` (it can
never go below the current length). -/
def Vec.shrinkTo (v : Vec) (minCap : Nat) : Vec :=
  if v.cap ≤ minCap then v else ⟨v.data, max v.data.length minCap⟩

/-- Model of `crossbeam::queue::ArrayQueue<Vec<u8>>`: a bounded queue with
fixed capacity `cap` and current elements `items` (front at the head). -/
structure ArrayQueue where
  cap : Nat
  items : List Vec
deriving DecidableEq

/-- `ArrayQueue::pop`: non-blocking; `none` when empty. -/
def ArrayQueue.pop (q : ArrayQueue) : Option Vec × ArrayQueue :=
  match q.items with
  | [] => (none, q)
  | v :: rest => (some v, ⟨q.cap, rest⟩)

/-- `ArrayQueue::push`: non-blocking; succeeds exactly when the queue is not
full, otherwise the element is handed back (and the caller drops it). -/
def ArrayQueue.push (q : ArrayQueue) (v : Vec) : ArrayQueue × Bool :=
  if q.items.length < q.cap then (⟨q.cap, q.items ++ [v]⟩, true) else (q, false)

/-- `struct Inner { buffer_cap: usize, pool: ArrayQueue<Vec<u8>> }`. -/
structure Inner where
  buffer_cap : Nat
  pool : ArrayQueue
deriving DecidableEq

/-- `struct PooledBuf(Vec<u8>, Option<Arc<Inner>>)`; the back-reference is
modelled by the flag `origin` (`true` iff the `Option` is `Some`). -/
structure PooledBuf where
  buf : Vec
  origin : Bool
deriving DecidableEq

/-- `Inner::get`: pop a buffer (or a default empty one when the queue is
empty), reset its length to 0, and hand it out with a back-reference. -/
def Inner.get (s : Inner) : PooledBuf × Inner :=
  let popped := s.pool.pop
  let buf := (popped.1.getD Vec.nil).setLen0
  (⟨buf, true⟩, ⟨s.buffer_cap, popped.2⟩)

/-- `Inner::put`: shrink the returned buffer to at most `buffer_cap`
(bounded below by its length) and push it; a failed push drops it. -/
def Inner.put (s : Inner) (buf : Vec) : Inner :=
  ⟨s.buffer_cap, (s.pool.push (buf.shrinkTo s.buffer_cap)).1⟩

/-- `pub struct BufferPool(Option<Arc<Inner>>)`. -/
def BufferPool := Option Inner

instance : DecidableEq BufferPool := by
  unfold BufferPool
  infer_instance

/-- The constructor body of `BufferPool::new` after the two configuration
values have been read (lines 56-61): a pool with `pool_cap = 0` is
disabled (no queue is allocated), otherwise the queue has exactly
`pool_cap` slots and starts empty. -/
def BufferPool.make (pool_cap buffer_cap : Nat) : BufferPool :=
  if 0 < pool_cap then some ⟨buffer_cap, ⟨pool_cap, []⟩⟩ else none

def DEFAULT_MYSQL_BUFFER_POOL_CAP : Nat := 128

def DEFAULT_MYSQL_BUFFER_SIZE_CAP : Nat := 4 * 1024 * 1024

/-- Model of `str::parse::<usize>()` as used in `BufferPool::new`: an
optional leading `+` sign, then one or more ASCII digits, and the value
must fit the target machine word (32-bit on wasm32-wasi). -/
def parseUsize (s : String) : Option Nat :=
  let cs := s.toList
  let ds := match cs with
    | '+' :: rest => rest
    | _ => cs
  if ds ≠ [] ∧ ds.all (fun c => 48 ≤ c.toNat ∧ c.toNat ≤ 57) then
    let n := ds.foldl (fun a c => a * 10 + (c.toNat - 48)) 0
    if n < 2 ^ 32 then some n else none
  else none

/-- `BufferPool::new`: read the two environment variables (modelled as
`Option String` arguments), fall back to the defaults when a variable is
absent or fails to parse, and build the pool. -/
def BufferPool.new (envPoolCap envSizeCap : Option String) : BufferPool :=
  let pool_cap := (envPoolCap.bind parseUsize).getD DEFAULT_MYSQL_BUFFER_POOL_CAP
  let buffer_cap := (envSizeCap.bind parseUsize).getD DEFAULT_MYSQL_BUFFER_SIZE_CAP
  BufferPool.make pool_cap buffer_cap

/-- `BufferPool::get`: delegate to `Inner::get` when enabled; hand out a
standalone empty buffer with no back-reference when disabled. -/
def BufferPool.get (p : BufferPool) : PooledBuf × BufferPool :=
  match p with
  | some inner =>
      let r := inner.get
      (r.1, some r.2)
  | none => (⟨Vec.nil, false⟩, none)

/-- `impl Drop for PooledBuf`: when a back-reference is present the storage
is moved out of the handle (`mem::replace` leaves an empty `vec![]`) and
handed to `Inner::put`; otherwise the storage is simply freed.  The
`origin = true, pool = none` case cannot arise in a real execution (a
handle with a back-reference always points at the live pool). -/
def PooledBuf.dropBuf (pb : PooledBuf) (p : BufferPool) : PooledBuf × BufferPool :=
  if pb.origin then
    match p with
    | some inner => (⟨Vec.nil, true⟩, some (inner.put pb.buf))
    | none => (pb, p)
  else (pb, p)

/-- One client-visible operation on an enabled pool: an acquire, or the
release performed when a handle holding buffer `v` is dropped. -/
inductive PoolOp where
  | acquire : PoolOp
  | release : Vec → PoolOp
deriving DecidableEq

/-- Effect of one operation on the shared `Inner` state. -/
def Inner.step (s : Inner) : PoolOp → Inner
  | PoolOp.acquire => s.get.2
  | PoolOp.release v => s.put v

/-- Effect of a sequence of operations on the shared `Inner` state. -/
def Inner.run (s : Inner) : List PoolOp → Inner
  | [] => s
  | op :: ops => (s.step op).run ops

end BufferPoolModel

namespace BufferPoolModel

/-- C9 helper facts are definitional; the claim theorems come below. -/
theorem make_pos (C B : Nat) (h : 0 < C) :
    BufferPool.make C B = some ⟨B, ⟨C, []⟩⟩ := by
  simp [BufferPool.make, h]

/-- A push never makes the queue longer than its capacity. -/
theorem ArrayQueue.push_length_le (q : ArrayQueue) (v : Vec)
    (h : q.items.length ≤ q.cap) : (q.push v).1.items.length ≤ q.cap := by
  unfold ArrayQueue.push
  split
  · next hlt => simpa using hlt
  · simpa using h

/-- A push preserves the fixed queue capacity. -/
theorem ArrayQueue.push_cap (q : ArrayQueue) (v : Vec) :
    (q.push v).1.cap = q.cap := by
  unfold ArrayQueue.push
  split <;> rfl

/-- A pop never makes the queue longer. -/
theorem ArrayQueue.pop_length_le (q : ArrayQueue) :
    (q.pop).2.items.length ≤ q.items.length := by
  obtain ⟨cap, items⟩ := q
  cases items <;> simp [ArrayQueue.pop]

/-- A pop preserves the fixed queue capacity. -/
theorem ArrayQueue.pop_cap (q : ArrayQueue) : (q.pop).2.cap = q.cap := by
  obtain ⟨cap, items⟩ := q
  cases items <;> rfl

/-- One step preserves the queue capacity field. -/
theorem Inner.step_cap (s : Inner) (op : PoolOp) :
    (s.step op).pool.cap = s.pool.cap := by
  cases op with
  | acquire => simpa [Inner.step, Inner.get] using ArrayQueue.pop_cap s.pool
  | release v => simpa [Inner.step, Inner.put] using ArrayQueue.push_cap s.pool _

/-- One step preserves the bounded-occupancy invariant. -/
theorem Inner.step_length_le (s : Inner) (op : PoolOp)
    (h : s.pool.items.length ≤ s.pool.cap) :
    (s.step op).pool.items.length ≤ (s.step op).pool.cap := by
  rw [Inner.step_cap]
  cases op with
  | acquire =>
      simp only [Inner.step, Inner.get]
      exact le_trans (ArrayQueue.pop_length_le s.pool) h
  | release v =>
      simp only [Inner.step, Inner.put]
      exact ArrayQueue.push_length_le s.pool _ h

/-- A run of operations preserves the queue capacity field. -/
theorem Inner.run_cap (s : Inner) (ops : List PoolOp) :
    (s.run ops).pool.cap = s.pool.cap := by
  induction ops generalizing s with
  | nil => rfl
  | cons op ops ih =>
      simp only [Inner.run]
      rw [ih, Inner.step_cap]

/-- A run of operations preserves the bounded-occupancy invariant. -/
theorem Inner.run_length_le (s : Inner) (ops : List PoolOp)
    (h : s.pool.items.length ≤ s.pool.cap) :
    (s.run ops).pool.items.length ≤ (s.run ops).pool.cap := by
  induction ops generalizing s with
  | nil => exact h
  | cons op ops ih =>
      simp only [Inner.run]
      exact ih _ (Inner.step_length_le s op h)

/-- **C1.** A pool built with capacity `C > 0` keeps at most `C` buffers in
its queue across any sequence of acquire and release operations; and a
release that hits a full queue leaves the queue untouched (the returned
buffer is silently dropped — no error and no blocking). -/
theorem queue_never_exceeds_capacity (C B : Nat) (hC : 0 < C)
    (inner : Inner) (hmk : BufferPool.make C B = some inner)
    (ops : List PoolOp) :
    (inner.run ops).pool.items.length ≤ C ∧
    (∀ (s : Inner) (v : Vec), s.pool.items.length = s.pool.cap →
        (s.put v).pool.items = s.pool.items) := by
  constructor
  · rw [make_pos C B hC] at hmk
    cases hmk
    have h0 : (Inner.mk B ⟨C, []⟩).pool.items.length ≤ (Inner.mk B ⟨C, []⟩).pool.cap := by
      simp
    have h1 := Inner.run_length_le (Inner.mk B ⟨C, []⟩) ops h0
    have h2 := Inner.run_cap (Inner.mk B ⟨C, []⟩) ops
    rw [h2] at h1
    exact h1
  · intro s v hfull
    simp only [Inner.put, ArrayQueue.push]
    rw [hfull]
    simp

/-- **C1 witness.** Concrete instance: capacity 1, two releases in a row;
the queue holds at most one buffer, and a release into the full queue
leaves it unchanged. -/
theorem queue_never_exceeds_capacity_witness :
    ((Inner.mk 0 ⟨1, []⟩).run
        [PoolOp.release ⟨[], 0⟩, PoolOp.release ⟨[], 2⟩]).pool.items.length ≤ 1 ∧
    ((Inner.mk 0 ⟨1, [Vec.nil]⟩).put Vec.nil).pool.items = [Vec.nil] :=
  ⟨(queue_never_exceeds_capacity 1 0 (by decide) ⟨0, ⟨1, []⟩⟩ (by decide)
      [PoolOp.release ⟨[], 0⟩, PoolOp.release ⟨[], 2⟩]).1,
   (queue_never_exceeds_capacity 1 0 (by decide) ⟨0, ⟨1, []⟩⟩ (by decide) []).2
      ⟨0, ⟨1, [Vec.nil]⟩⟩ Vec.nil (by decide)⟩

/-- **C2.** Every acquire — on an enabled or a disabled pool, after any
history — hands out a buffer whose contents are empty (length 0), and when
the buffer was recycled from the queue its previously allocated capacity
is untouched. -/
theorem acquire_resets_length_keeps_capacity (p : BufferPool) :
    (p.get.1.buf.data = []) ∧
    (∀ (inner : Inner) (v : Vec) (rest : List Vec),
        p = some inner → inner.pool.items = v :: rest →
        p.get.1.buf.cap = v.cap) := by
  constructor
  · cases p with
    | none => rfl
    | some inner =>
        obtain ⟨bc, ⟨qcap, items⟩⟩ := inner
        cases items <;> rfl
  · rintro inner v rest rfl hitems
    obtain ⟨bc, ⟨qcap, items⟩⟩ := inner
    simp only at hitems
    subst hitems
    rfl

/-- **C2 witness.** A queue holding one buffer of capacity 4: the acquired
buffer has empty contents and capacity 4. -/
theorem acquire_resets_length_keeps_capacity_witness :
    (BufferPool.get (some ⟨5, ⟨2, [⟨[1, 2], 4⟩]⟩⟩)).1.buf.data = [] ∧
    (BufferPool.get (some ⟨5, ⟨2, [⟨[1, 2], 4⟩]⟩⟩)).1.buf.cap = 4 :=
  ⟨(acquire_resets_length_keeps_capacity (some ⟨5, ⟨2, [⟨[1, 2], 4⟩]⟩⟩)).1,
   (acquire_resets_length_keeps_capacity (some ⟨5, ⟨2, [⟨[1, 2], 4⟩]⟩⟩)).2
      ⟨5, ⟨2, [⟨[1, 2], 4⟩]⟩⟩ ⟨[1, 2], 4⟩ [] rfl rfl⟩

/-- **C5.** With pool capacity 0 the constructor produces the disabled
state: no queue is allocated (`none`), every acquire returns a standalone
empty buffer with no back-reference and leaves the (absent) pool
unchanged, and dropping a handle without a back-reference never inserts
anything into any pool. -/
theorem zero_capacity_disables_pool (B : Nat) :
    BufferPool.make 0 B = none ∧
    (BufferPool.get (BufferPool.make 0 B)).1 = ⟨Vec.nil, false⟩ ∧
    (BufferPool.get (BufferPool.make 0 B)).2 = none ∧
    (∀ (pb : PooledBuf) (p : BufferPool), pb.origin = false →
        pb.dropBuf p = (pb, p)) := by
  refine ⟨by simp [BufferPool.make], by simp [BufferPool.make, BufferPool.get],
    by simp [BufferPool.make, BufferPool.get], ?_⟩
  intro pb p h
  simp [PooledBuf.dropBuf, h]

/-- **C5 witness.** Concrete instance at buffer ceiling 7 and a concrete
handle with no back-reference dropped over a concrete enabled pool. -/
theorem zero_capacity_disables_pool_witness :
    BufferPool.make 0 7 = none ∧
    (BufferPool.get (BufferPool.make 0 7)).1 = ⟨Vec.nil, false⟩ ∧
    PooledBuf.dropBuf ⟨⟨[3], 2⟩, false⟩ (some ⟨5, ⟨1, []⟩⟩) =
      (⟨⟨[3], 2⟩, false⟩, some ⟨5, ⟨1, []⟩⟩) :=
  ⟨(zero_capacity_disables_pool 7).1, (zero_capacity_disables_pool 7).2.1,
   (zero_capacity_disables_pool 7).2.2.2 ⟨⟨[3], 2⟩, false⟩ (some ⟨5, ⟨1, []⟩⟩) rfl⟩

/-- **C6.** Dropping a `PooledBuf`: with a back-reference present, the
storage is moved out (the handle is left holding the empty `vec![]`, so no
second return can see the storage) and handed to the pool's `put`; with no
back-reference, nothing is handed to any pool and the handle and pool are
unchanged (the storage is simply freed at deallocation). -/
theorem drop_moves_storage_to_put (pb : PooledBuf) (inner : Inner) (p : BufferPool) :
    (pb.origin = true →
        (pb.dropBuf (some inner)).1 = ⟨Vec.nil, true⟩ ∧
        (pb.dropBuf (some inner)).2 = some (inner.put pb.buf)) ∧
    (pb.origin = false → pb.dropBuf p = (pb, p)) := by
  constructor
  · intro h
    constructor <;> simp [PooledBuf.dropBuf, h]
  · intro h
    simp [PooledBuf.dropBuf, h]

/-- **C6 witness.** A handle with a back-reference holding a 3-byte buffer:
after the drop the handle holds the empty vector and the pool received the
buffer through `put`; a handle without a back-reference changes nothing. -/
theorem drop_moves_storage_to_put_witness :
    (PooledBuf.dropBuf ⟨⟨[9, 9, 9], 3⟩, true⟩ (some ⟨5, ⟨1, []⟩⟩)).1 = ⟨Vec.nil, true⟩ ∧
    (PooledBuf.dropBuf ⟨⟨[9, 9, 9], 3⟩, true⟩ (some ⟨5, ⟨1, []⟩⟩)).2 =
      some (Inner.put ⟨5, ⟨1, []⟩⟩ ⟨[9, 9, 9], 3⟩) ∧
    PooledBuf.dropBuf ⟨⟨[9], 1⟩, false⟩ none = (⟨⟨[9], 1⟩, false⟩, none) :=
  ⟨((drop_moves_storage_to_put ⟨⟨[9, 9, 9], 3⟩, true⟩ ⟨5, ⟨1, []⟩⟩ none).1 rfl).1,
   ((drop_moves_storage_to_put ⟨⟨[9, 9, 9], 3⟩, true⟩ ⟨5, ⟨1, []⟩⟩ none).1 rfl).2,
   (drop_moves_storage_to_put ⟨⟨[9], 1⟩, false⟩ ⟨5, ⟨1, []⟩⟩ none).2 rfl⟩

/-- **C7.** Acquire on an enabled pool: the returned handle always carries
the back-reference; with a non-empty queue the handed-out storage is the
popped front buffer (length reset, capacity kept) and the queue loses that
buffer; with an empty queue a fresh empty allocation is handed out and the
pool state is unchanged.  The operation is total: it never fails or
blocks. -/
theorem acquire_pops_or_allocates (s : Inner) :
    (s.get.1.origin = true) ∧
    (∀ (v : Vec) (rest : List Vec), s.pool.items = v :: rest →
        s.get.1.buf = v.setLen0 ∧ s.get.2 = ⟨s.buffer_cap, ⟨s.pool.cap, rest⟩⟩) ∧
    (s.pool.items = [] → s.get.1.buf = Vec.nil ∧ s.get.2 = s) := by
  obtain ⟨bc, ⟨qcap, items⟩⟩ := s
  refine ⟨?_, ?_, ?_⟩
  · cases items <;> rfl
  · intro v rest hitems
    simp only at hitems
    subst hitems
    exact ⟨rfl, rfl⟩
  · intro hitems
    simp only at hitems
    subst hitems
    exact ⟨rfl, rfl⟩

/-- **C7 witness.** Popping from a queue holding one buffer, and acquiring
from an empty queue. -/
theorem acquire_pops_or_allocates_witness :
    (Inner.get ⟨6, ⟨2, [⟨[7], 3⟩]⟩⟩).1.origin = true ∧
    (Inner.get ⟨6, ⟨2, [⟨[7], 3⟩]⟩⟩).1.buf = Vec.setLen0 ⟨[7], 3⟩ ∧
    (Inner.get ⟨6, ⟨2, [⟨[7], 3⟩]⟩⟩).2 = ⟨6, ⟨2, []⟩⟩ ∧
    (Inner.get ⟨6, ⟨2, []⟩⟩).1.buf = Vec.nil ∧
    (Inner.get ⟨6, ⟨2, []⟩⟩).2 = ⟨6, ⟨2, []⟩⟩ :=
  ⟨(acquire_pops_or_allocates ⟨6, ⟨2, [⟨[7], 3⟩]⟩⟩).1,
   ((acquire_pops_or_allocates ⟨6, ⟨2, [⟨[7], 3⟩]⟩⟩).2.1 ⟨[7], 3⟩ [] rfl).1,
   ((acquire_pops_or_allocates ⟨6, ⟨2, [⟨[7], 3⟩]⟩⟩).2.1 ⟨[7], 3⟩ [] rfl).2,
   ((acquire_pops_or_allocates ⟨6, ⟨2, []⟩⟩).2.2 rfl).1,
   ((acquire_pops_or_allocates ⟨6, ⟨2, []⟩⟩).2.2 rfl).2⟩

/-- **C3 counterexample.** Ceiling 5; a handle holding a buffer of length
10 and capacity 10 (capacity exceeds the ceiling) is dropped into an
enabled pool with room in the queue, and the buffer is re-acquired.
`shrink_to` cannot shrink below the length, so the re-acquired capacity is
10, not at most 5 — the claim as stated is false. -/
theorem oversized_reacquired_capacity_above_ceiling :
    ¬ ((BufferPool.get
          ((PooledBuf.dropBuf ⟨⟨List.replicate 10 0, 10⟩, true⟩
              (some ⟨5, ⟨1, []⟩⟩)).2)).1.buf.cap ≤ 5) := by
  decide

/-- **C3 amended.** A buffer whose capacity exceeds the ceiling at drop
time, once re-acquired, has capacity exactly `max` of its length at drop
time and the ceiling; in particular the capacity is at most the ceiling
whenever the buffer's length at drop time was at most the ceiling. -/
theorem oversized_reacquired_capacity_eq_len_max_ceiling (s : Inner) (v : Vec)
    (hempty : s.pool.items = []) (hroom : 0 < s.pool.cap)
    (hover : s.buffer_cap < v.cap) :
    (BufferPool.get ((PooledBuf.dropBuf ⟨v, true⟩ (some s)).2)).1.buf.cap =
      max v.data.length s.buffer_cap ∧
    (v.data.length ≤ s.buffer_cap →
      (BufferPool.get ((PooledBuf.dropBuf ⟨v, true⟩ (some s)).2)).1.buf.cap ≤
        s.buffer_cap) := by
  obtain ⟨bc, ⟨qcap, items⟩⟩ := s
  simp only at hempty hroom hover
  subst hempty
  have hcap : (BufferPool.get ((PooledBuf.dropBuf ⟨v, true⟩
      (some ⟨bc, ⟨qcap, []⟩⟩)).2)).1.buf.cap = max v.data.length bc := by
    simp [PooledBuf.dropBuf, Inner.put, Vec.shrinkTo, ArrayQueue.push,
      BufferPool.get, Inner.get, ArrayQueue.pop, Vec.setLen0,
      Nat.not_le.mpr hover, hroom]
  refine ⟨hcap, fun hlen => ?_⟩
  rw [hcap]
  exact max_le hlen le_rfl

/-- **C3 amended witness.** Ceiling 5, buffer of length 2 and capacity 7:
the re-acquired capacity is `max 2 5 = 5`, which is at most the ceiling. -/
theorem oversized_reacquired_capacity_eq_len_max_ceiling_witness :
    (BufferPool.get ((PooledBuf.dropBuf ⟨⟨[1, 2], 7⟩, true⟩
        (some ⟨5, ⟨1, []⟩⟩)).2)).1.buf.cap = max 2 5 ∧
    (BufferPool.get ((PooledBuf.dropBuf ⟨⟨[1, 2], 7⟩, true⟩
        (some ⟨5, ⟨1, []⟩⟩)).2)).1.buf.cap ≤ 5 :=
  ⟨(oversized_reacquired_capacity_eq_len_max_ceiling ⟨5, ⟨1, []⟩⟩ ⟨[1, 2], 7⟩
      rfl (by decide) (by decide)).1,
   (oversized_reacquired_capacity_eq_len_max_ceiling ⟨5, ⟨1, []⟩⟩ ⟨[1, 2], 7⟩
      rfl (by decide) (by decide)).2 (by decide)⟩

/-- **C4 counterexample.** Ceiling 5; releasing a buffer of length 1 and
capacity 1 inserts it into the queue with its length still 1 — the release
path never resets the length (that happens on acquire), so the queue can
hold buffers of nonzero length and the claim as stated is false. -/
theorem queued_buffer_length_not_zero :
    ¬ (∀ w ∈ (Inner.put ⟨5, ⟨1, []⟩⟩ ⟨[1], 1⟩).pool.items,
          w.data.length = 0 ∧ w.cap ≤ 5) := by
  decide

/-- **C4 amended.** Every buffer the release path inserts into the queue
has capacity at most `max` of its length and the ceiling (so at most the
ceiling whenever its length is within the ceiling); its length is not
reset on insertion.  An oversized buffer is never rejected: whenever the
queue has room, the release inserts exactly one buffer. -/
theorem release_inserts_shrunk_buffer (s : Inner) (v : Vec) :
    (∀ w ∈ (s.put v).pool.items,
        w ∈ s.pool.items ∨ w.cap ≤ max v.data.length s.buffer_cap) ∧
    (s.pool.items.length < s.pool.cap →
        (s.put v).pool.items.length = s.pool.items.length + 1) := by
  constructor
  · intro w hw
    simp only [Inner.put, ArrayQueue.push] at hw
    split at hw
    · simp only [List.mem_append, List.mem_singleton] at hw
      rcases hw with h | h
      · exact Or.inl h
      · subst h
        right
        unfold Vec.shrinkTo
        split
        · next hle => exact le_trans hle (le_max_right _ _)
        · simp
    · exact Or.inl hw
  · intro hlt
    simp [Inner.put, ArrayQueue.push, hlt]

/-- **C4 amended witness.** Ceiling 5, queue with room; releasing a buffer
of length 3 and capacity 9 inserts the buffer shrunk to capacity
`max 3 5 = 5`, growing the queue by one. -/
theorem release_inserts_shrunk_buffer_witness :
    ((⟨[1, 2, 3], 5⟩ : Vec) ∈ (Inner.put ⟨5, ⟨2, []⟩⟩ ⟨[1, 2, 3], 9⟩).pool.items →
        (⟨[1, 2, 3], 5⟩ : Vec) ∈ ([] : List Vec) ∨
          (⟨[1, 2, 3], 5⟩ : Vec).cap ≤ max 3 5) ∧
    (Inner.put ⟨5, ⟨2, []⟩⟩ ⟨[1, 2, 3], 9⟩).pool.items.length = 0 + 1 :=
  ⟨fun hm => (release_inserts_shrunk_buffer ⟨5, ⟨2, []⟩⟩ ⟨[1, 2, 3], 9⟩).1
      ⟨[1, 2, 3], 5⟩ hm,
   (release_inserts_shrunk_buffer ⟨5, ⟨2, []⟩⟩ ⟨[1, 2, 3], 9⟩).2 (by decide)⟩

/-- **C8 counterexample.** Ceiling 0; releasing a buffer of length 1 and
capacity 1 stores it with capacity 1, not 0: `shrink_to(0)` cannot go
below the buffer's length, so the claim as stated is false. -/
theorem zero_ceiling_capacity_not_always_zero :
    ¬ (∀ w ∈ (Inner.put ⟨0, ⟨1, []⟩⟩ ⟨[1], 1⟩).pool.items, w.cap = 0) := by
  decide

/-- **C8 amended.** With ceiling 0, every buffer the release path inserts
into the queue is shrunk to capacity exactly its current length (so to
capacity 0 exactly when the buffer is empty). -/
theorem zero_ceiling_shrinks_to_length (s : Inner) (v : Vec)
    (hz : s.buffer_cap = 0) (hv : v.wf) :
    ∀ w ∈ (s.put v).pool.items, w ∈ s.pool.items ∨ w.cap = v.data.length := by
  intro w hw
  simp only [Inner.put, ArrayQueue.push] at hw
  split at hw
  · simp only [List.mem_append, List.mem_singleton] at hw
    rcases hw with h | h
    · exact Or.inl h
    · subst h
      right
      unfold Vec.shrinkTo
      rw [hz]
      split
      · next hle =>
          have h1 : v.cap = 0 := Nat.le_zero.mp hle
          have h2 : v.data.length = 0 := Nat.le_zero.mp (le_trans hv hle)
          rw [h1, h2]
      · simp
  · exact Or.inl hw

/-- **C8 amended witness.** Ceiling 0; the released buffer of length 1 sits
in the queue with capacity exactly 1. -/
theorem zero_ceiling_shrinks_to_length_witness :
    (⟨[1], 1⟩ : Vec) ∈ (Inner.put ⟨0, ⟨1, []⟩⟩ ⟨[1], 1⟩).pool.items ∧
    ((⟨[1], 1⟩ : Vec) ∈ ([] : List Vec) ∨ (⟨[1], 1⟩ : Vec).cap = 1) :=
  ⟨by decide,
   zero_ceiling_shrinks_to_length ⟨0, ⟨1, []⟩⟩ ⟨[1], 1⟩ rfl (by decide)
      ⟨[1], 1⟩ (by decide)⟩

/-- **C10.** An environment variable that is present but fails to parse as
an unsigned integer makes the constructor fall back to the corresponding
default, exactly as if the variable were absent — for either variable. -/
theorem unparsable_env_var_falls_back_to_default (s : String) (e : Option String)
    (h : parseUsize s = none) :
    BufferPool.new (some s) e = BufferPool.new none e ∧
    BufferPool.new e (some s) = BufferPool.new e none := by
  unfold BufferPool.new
  simp [h]

/-- **C10 witness.** The string `abc` does not parse; construction with it
in either variable equals construction without the variable. -/
theorem unparsable_env_var_falls_back_to_default_witness :
    BufferPool.new (some "abc") none = BufferPool.new none none ∧
    BufferPool.new none (some "abc") = BufferPool.new none none :=
  ⟨(unparsable_env_var_falls_back_to_default "abc" none (by decide)).1,
   (unparsable_env_var_falls_back_to_default "abc" none (by decide)).2⟩

/-- **C9.** Default construction, with neither environment variable
supplied, yields an enabled pool whose queue capacity is 128 and whose
buffer size ceiling is 4 MiB (4194304 bytes), with an initially empty
queue. -/
theorem default_pool_is_128_and_4MiB :
    BufferPool.new none none = some ⟨4 * 1024 * 1024, ⟨128, []⟩⟩ ∧
    DEFAULT_MYSQL_BUFFER_POOL_CAP = 128 ∧
    DEFAULT_MYSQL_BUFFER_SIZE_CAP = 4 * 1024 * 1024 := by
  refine ⟨?_, rfl, rfl⟩
  rfl

end BufferPoolModel
